import Mathlib

/-!
Shallow embedding of `source/schedule/make_weeks.py`.

Dates are embedded as proleptic-Gregorian ordinals (`Int`), exactly the value
of Python's `date.toordinal()`: ordinal 1 is January 1 of year 1, which is a
Monday, so Python's `date.weekday()` (Monday = 0 … Sunday = 6) is
`(ordinal + 6) % 7`.  Adding a `timedelta(days = n)` is ordinal addition.
Strings are embedded as `String` / `List Char`; the command-line driver `main`
is embedded as a pure function from the argument list to the ordered trace of
file writes it performs, paired with the fatal error message when it aborts.
-/

/-- Python `date.weekday()` on an ordinal: Monday = 0 … Sunday = 6. -/
def weekday (d : Int) : Int := (d + 6) % 7

/-- The day-name table of `make_weeks.py` (`DAY_NAME_MAP`), in source order. -/
def DAY_NAME_MAP : List (String × Nat) :=
  [("m", 0), ("mon", 0), ("monday", 0),
   ("t", 1), ("tu", 1), ("tue", 1), ("tues", 1), ("tuesday", 1),
   ("w", 2), ("wed", 2), ("wednesday", 2),
   ("r", 3), ("th", 3), ("thu", 3), ("thur", 3), ("thurs", 3), ("thursday", 3),
   ("f", 4), ("fri", 4), ("friday", 4),
   ("sa", 5), ("sat", 5), ("saturday", 5),
   ("su", 6), ("sun", 6), ("sunday", 6)]

/-- Python `str.replace(",", " ")` for a single-character pattern. -/
def replaceCommas (l : List Char) : List Char :=
  l.map (fun c => if c = ',' then ' ' else c)

/-- Python `str.strip()`: drop leading and trailing whitespace. -/
def stripChars (l : List Char) : List Char :=
  ((l.dropWhile Char.isWhitespace).reverse.dropWhile Char.isWhitespace).reverse

/-- Helper for Python's argument-less `str.split()`: accumulate the current
word (reversed) and split on runs of whitespace, dropping empty words. -/
def splitWsAux : List Char → List Char → List (List Char)
  | [], acc => if acc = [] then [] else [acc.reverse]
  | c :: cs, acc =>
    if c.isWhitespace then
      if acc = [] then splitWsAux cs [] else acc.reverse :: splitWsAux cs []
    else
      splitWsAux cs (c :: acc)

/-- Python `str.split()` (no separator: split on whitespace, drop empties). -/
def splitWs (l : List Char) : List (List Char) := splitWsAux l []

/-- The tokenisation step of `parse_meeting_days`: after replacing commas by
spaces and stripping, a space-free purely-alphabetic string of length 2 or 3
is read as one token per character (compact form such as "MWF"); otherwise
the string is split on whitespace. -/
def tokensOf (meeting_days_str : String) : List (List Char) :=
  let s := stripChars (replaceCommas meeting_days_str.data)
  if s.contains ' ' = false ∧ s.all Char.isAlpha = true ∧ 1 < s.length ∧ s.length ≤ 3 then
    s.map (fun c => [c])
  else
    splitWs s

/-- Python `tok.lower()` turned into the lookup key used on `DAY_NAME_MAP`. -/
def tokenKey (tok : List Char) : String := String.mk (tok.map Char.toLower)

/-- The token loop of `parse_meeting_days`: look each token up in
`DAY_NAME_MAP` (raising `ValueError` on an unknown token) and append the
weekday number to the accumulator unless it is already present. -/
def collectDays : List (List Char) → List Nat → Except String (List Nat)
  | [], weekdays => .ok weekdays
  | tok :: rest, weekdays =>
    match DAY_NAME_MAP.lookup (tokenKey tok) with
    | none => .error ("Unknown day token: " ++ String.mk tok)
    | some wd => collectDays rest (if weekdays.contains wd then weekdays else weekdays ++ [wd])

/-- `parse_meeting_days`: tokenise, collect weekday numbers, then sort
ascending (Python's in-place `list.sort()`, modelled by insertion sort). -/
def parse_meeting_days (meeting_days_str : String) : Except String (List Nat) :=
  match collectDays (tokensOf meeting_days_str) [] with
  | .error e => .error e
  | .ok weekdays => .ok (List.insertionSort (· ≤ ·) weekdays)

/-- One week of the schedule as yielded by `build_schedule`:
`(week_number, week_start, week_end, meeting_dates)`. -/
structure Week where
  week_number : Nat
  week_start : Int
  week_end : Int
  meeting_dates : List Int
deriving DecidableEq

/-- The inner loop of `build_schedule`: for each weekday number in
`meeting_days`, the candidate date `week_start + wd` is kept when it lies in
`[start_date, end_date]` and is not an excluded date. -/
def weekMeetings (start_date end_date : Int) (meeting_days : List Nat)
    (no_class_dates : List Int) (week_start : Int) : List Int :=
  meeting_days.filterMap fun (wd : Nat) =>
    let d := week_start + (wd : Int)
    if start_date ≤ d ∧ d ≤ end_date ∧ d ∉ no_class_dates then some d else none

/-- The `while True` loop of `build_schedule`, starting at `week_index`:
stop as soon as `week_start > end_date`, otherwise yield the week and
continue with the next index. -/
def scheduleLoop (start_date end_date : Int) (meeting_days : List Nat)
    (no_class_dates : List Int) (first_monday : Int) (week_index : Nat) : List Week :=
  let week_start := first_monday + 7 * (week_index : Int)
  if h : end_date < week_start then
    []
  else
    ⟨week_index + 1, week_start, week_start + 6,
      weekMeetings start_date end_date meeting_days no_class_dates week_start⟩ ::
      scheduleLoop start_date end_date meeting_days no_class_dates first_monday (week_index + 1)
termination_by (end_date + 1 - (first_monday + 7 * (week_index : Int))).toNat
decreasing_by
  simp only [not_lt] at *
  push_cast
  omega

/-- `build_schedule`: anchor at the Monday on or before `start_date`
(`start_date - weekday(start_date)`) and run the week loop from index 0. -/
def build_schedule (start_date end_date : Int) (meeting_days : List Nat)
    (no_class_dates : List Int) : List Week :=
  scheduleLoop start_date end_date meeting_days no_class_dates
    (start_date - weekday start_date) 0

/-- The week produced at loop index `j` (closed form of one loop iteration). -/
def mkWeek (start_date end_date : Int) (meeting_days : List Nat)
    (no_class_dates : List Int) (first_monday : Int) (j : Nat) : Week :=
  ⟨j + 1, first_monday + 7 * (j : Int), first_monday + 7 * (j : Int) + 6,
    weekMeetings start_date end_date meeting_days no_class_dates (first_monday + 7 * (j : Int))⟩

/-- Number of loop iterations remaining when the current week starts at
`week_start`: 0 when `week_start > end_date`, else one per 7-day stride. -/
def weeksRemaining (end_date week_start : Int) : Nat :=
  ((end_date + 1 - week_start).toNat + 6) / 7

/-- Total number of weeks yielded for the range `[start_date, end_date]`. -/
def numWeeks (start_date end_date : Int) : Nat :=
  weeksRemaining end_date (start_date - weekday start_date)

/-- Python's `int()` on a digit string (used by `parse_date`). -/
def digitsToNat (l : List Char) : Nat :=
  l.foldl (fun a c => 10 * a + (c.toNat - 48)) 0

/-- Python `int(str)`: strip whitespace, optional sign, then decimal digits;
anything else raises `ValueError`. -/
def parseInt (l0 : List Char) : Except String Int :=
  let l := stripChars l0
  match l with
  | '+' :: rest =>
    if rest ≠ [] ∧ rest.all Char.isDigit = true then .ok (digitsToNat rest)
    else .error "invalid literal for int"
  | '-' :: rest =>
    if rest ≠ [] ∧ rest.all Char.isDigit = true then .ok (-(digitsToNat rest : Int))
    else .error "invalid literal for int"
  | _ =>
    if l ≠ [] ∧ l.all Char.isDigit = true then .ok (digitsToNat l)
    else .error "invalid literal for int"

/-- Gregorian leap-year rule (as in Python's `datetime`). -/
def isLeap (y : Int) : Bool := y % 4 == 0 && (y % 100 != 0 || y % 400 == 0)

/-- Month lengths of year `y`, January first. -/
def monthLengths (y : Int) : List Nat :=
  [31, if isLeap y then 29 else 28, 31, 30, 31, 30, 31, 31, 30, 31, 30, 31]

/-- Days in year `y`. -/
def daysInYear (y : Int) : Int := if isLeap y then 366 else 365

/-- Days in month `m` (1-based) of year `y`. -/
def daysInMonth (y m : Int) : Int := ((monthLengths y).getD (m - 1).toNat 0 : Nat)

/-- Days of year `y` that precede month `m` (1-based). -/
def daysBeforeMonth (y m : Int) : Int :=
  (((monthLengths y).take (m - 1).toNat).foldl (fun a b => a + b) 0 : Nat)

/-- `date(y, m, d).toordinal()` for a valid proleptic-Gregorian date. -/
def toOrdinal (y m d : Int) : Int :=
  365 * (y - 1) + (y - 1) / 4 - (y - 1) / 100 + (y - 1) / 400 + daysBeforeMonth y m + d

/-- Python's `date(y, m, d)` constructor: validate the ranges that
`datetime.date` enforces (`1 ≤ y ≤ 9999`, `1 ≤ m ≤ 12`,
`1 ≤ d ≤ days_in_month`) and return the ordinal. -/
def date_new (y m d : Int) : Except String Int :=
  if 1 ≤ y ∧ y ≤ 9999 ∧ 1 ≤ m ∧ m ≤ 12 ∧ 1 ≤ d ∧ d ≤ daysInMonth y m then
    .ok (toOrdinal y m d)
  else
    .error "invalid date"

/-- Python `str.split("/")`: split on every slash, keeping empty parts. -/
def splitOnSlashAux : List Char → List Char → List (List Char)
  | [], acc => [acc.reverse]
  | c :: cs, acc =>
    if c = '/' then acc.reverse :: splitOnSlashAux cs []
    else splitOnSlashAux cs (c :: acc)

/-- Python `str.split("/")`. -/
def splitOnSlash (l : List Char) : List (List Char) := splitOnSlashAux l []

/-- `parse_date` on a character list: strip, split on `/` into exactly three
integer components `m/d/y`, then build `date(y, m, d)`. -/
def parse_date_chars (l : List Char) : Except String Int :=
  match splitOnSlash (stripChars l) with
  | [ms, ds, ys] =>
    match parseInt ms, parseInt ds, parseInt ys with
    | .ok m, .ok d, .ok y => date_new y m d
    | _, _, _ => .error "invalid date component"
  | _ => .error "date must be M/D/YYYY"

/-- `parse_date`: parse `M/D/YYYY` into a date ordinal. -/
def parse_date (s : String) : Except String Int := parse_date_chars s.data

/-- Parse the tail of a list of date tokens (`parse_date_list` loop). -/
def parseDates : List (List Char) → Except String (List Int)
  | [] => .ok []
  | p :: rest =>
    match parse_date_chars p with
    | .error e => .error e
    | .ok d =>
      match parseDates rest with
      | .error e => .error e
      | .ok ds => .ok (d :: ds)

/-- `parse_date_list`: empty string gives the empty set; otherwise replace
commas by spaces, split on whitespace and parse each token.  The Python
result is a `set` used only for membership tests; it is embedded as the list
of parsed dates. -/
def parse_date_list (s : String) : Except String (List Int) :=
  if s = "" then .ok []
  else parseDates (splitWs (replaceCommas s.data))

/-- Year extraction from an ordinal: subtract whole years.  The fuel bound of
9999 covers every date Python's `datetime` can represent (`MAXYEAR = 9999`). -/
def ordYearAux : Nat → Int → Int → Int × Int
  | 0, y, n => (y, n)
  | fuel + 1, y, n =>
    if daysInYear y < n then ordYearAux fuel (y + 1) (n - daysInYear y)
    else (y, n)

/-- Month extraction from a day-of-year: subtract whole months. -/
def monthDayAux : List Nat → Nat → Int → Nat × Int
  | [], m, n => (m, n)
  | len :: rest, m, n =>
    if (len : Int) < n then monthDayAux rest (m + 1) (n - len)
    else (m, n)

/-- `date.fromordinal`: ordinal to (year, month, day-of-month). -/
def fromOrdinal (n : Int) : Int × Nat × Int :=
  let yd := ordYearAux 9999 1 n
  let md := monthDayAux (monthLengths yd.1) 1 yd.2
  (yd.1, md.1, md.2)

/-- Month number (1-based) of an ordinal date. -/
def monthOf (d : Int) : Nat := (fromOrdinal d).2.1

/-- Day of month of an ordinal date. -/
def dayOfMonth (d : Int) : Nat := (fromOrdinal d).2.2.toNat

/-- English month names, as produced by `strftime("%B")` in the C locale. -/
def MONTH_NAMES : List String :=
  ["January", "February", "March", "April", "May", "June",
   "July", "August", "September", "October", "November", "December"]

/-- Full month name of month `m` (1-based). -/
def monthName (m : Nat) : String := MONTH_NAMES.getD (m - 1) ""

/-- Zero-pad a number to two digits (Python's `{:02d}`). -/
def pad2 (n : Nat) : String := if n < 10 then "0" ++ Nat.repr n else Nat.repr n

/-- `format_date_for_title`: `strftime("%B %-d")`, day without padding. -/
def format_date_for_title (d : Int) : String :=
  monthName (monthOf d) ++ " " ++ Nat.repr (dayOfMonth d)

/-- `format_date_for_meeting_title`: `strftime("%B %d")`, zero-padded day. -/
def format_date_for_meeting_title (d : Int) : String :=
  monthName (monthOf d) ++ " " ++ pad2 (dayOfMonth d)

/-- The lines appended by `generate_week_xml` for one meeting date. -/
def meetingItemLines (d : Int) : List String :=
  ["      <li>",
   "        <title>" ++ format_date_for_meeting_title d ++ "</title>",
   "        <p>",
   "          Material",
   "        </p>",
   "      </li>"]

/-- The header lines of a week document, up to and including `<dl>`. -/
def weekHeaderLines (week_number : Nat) (week_start week_end : Int) : List String :=
  ["<?xml version=\"1.0\" encoding=\"utf-8\"?>",
   "<subsection xml:id=\"week-" ++ pad2 week_number ++ "\">",
   "  <title>" ++ format_date_for_title week_start ++ " <ndash/> " ++
     format_date_for_title week_end ++ "</title>",
   "  <p>",
   "    <dl>"]

/-- The closing lines of a week document. -/
def weekFooterLines : List String := ["    </dl>", "  </p>", "</subsection>"]

/-- `generate_week_xml`: the full text of one `weekXX.ptx` file. -/
def generate_week_xml (week_number : Nat) (week_start week_end : Int)
    (meeting_dates : List Int) : String :=
  String.intercalate "\n"
    (weekHeaderLines week_number week_start week_end ++
      (meeting_dates.map meetingItemLines).flatten ++ weekFooterLines)

/-- The header lines of `main.ptx`. -/
def mainPtxHeaderLines : List String :=
  ["<?xml version=\"1.0\" encoding=\"utf-8\"?>",
   "<section xml:id=\"schedule\" xmlns:xi=\"http://www.w3.org/2001/XInclude\">",
   "  <title>Schedule</title>"]

/-- One `xi:include` line of `main.ptx`. -/
def includeLine (wf : String) : String :=
  "  <xi:include href=\"" ++ wf ++ "\"/>"

/-- The fixed closing boilerplate of `main.ptx`: a blank line, then the
disclaimer that the instructor may modify the schedule. -/
def mainPtxFooterLines : List String :=
  ["",
   "  <conclusion>",
   "    <warning>",
   "      <p>",
   "        The instructor reserves the right to modify the schedule as needed.",
   "      </p>",
   "    </warning>",
   "  </conclusion>",
   "</section>"]

/-- `generate_main_ptx` as a pure function: the text written to `main.ptx`
(one include per week file, in the given order, then the boilerplate). -/
def generate_main_ptx (week_files : List String) : String :=
  String.intercalate "\n"
    (mainPtxHeaderLines ++ week_files.map includeLine ++ mainPtxFooterLines)

/-- The file name `weekNN.ptx` of week number `n`. -/
def fileName (n : Nat) : String := "week" ++ pad2 n ++ ".ptx"

/-- The fatal message of `main` when `end_date < start_date`. -/
def rangeErrMsg : String := "end_date must be on or after start_date"

/-- The fatal message of `main` when `--no-class` has no following token. -/
def missingValueMsg : String := "--no-class requires a value"

/-- The usage failure of `main` when fewer than 4 tokens are supplied. -/
def usageMsg : String := "usage"

/-- The `--no-class` handling of `main`: if the flag token occurs in `argv`,
take the token after its first occurrence as the exclusion date list; a flag
with no following token is fatal.  Without the flag the exclusion set is
empty. -/
def parseNoClass (argv : List String) : Except String (List Int) :=
  if argv.contains "--no-class" then
    let idx := argv.findIdx (· == "--no-class")
    if argv.length ≤ idx + 1 then .error missingValueMsg
    else parse_date_list (argv.getD (idx + 1) "")
  else .ok []

/-- `main(argv)` as a pure function: the ordered trace of
`(file name, file content)` writes it performs, paired with `some msg` when
it aborts with a fatal error (in which case the trace contains exactly the
writes made before the failure).  Mirrors the control flow of the source:
usage check, date parsing, range check, meeting-day parsing, `--no-class`
handling, then one write per week of `build_schedule` followed by the
`main.ptx` write. -/
def runMain (argv : List String) : List (String × String) × Option String :=
  if argv.length < 4 then ([], some usageMsg)
  else
    match parse_date (argv.getD 1 "") with
    | .error e => ([], some e)
    | .ok start_date =>
      match parse_date (argv.getD 2 "") with
      | .error e => ([], some e)
      | .ok end_date =>
        if end_date < start_date then ([], some rangeErrMsg)
        else
          match parse_meeting_days (argv.getD 3 "") with
          | .error e => ([], some e)
          | .ok meeting_days =>
            match parseNoClass argv with
            | .error e => ([], some e)
            | .ok no_class_dates =>
              let weeks := build_schedule start_date end_date meeting_days no_class_dates
              (weeks.map (fun w =>
                  (fileName w.week_number,
                   generate_week_xml w.week_number w.week_start w.week_end w.meeting_dates)) ++
                [("main.ptx", generate_main_ptx (weeks.map (fun w => fileName w.week_number)))],
               none)

theorem scheduleLoop_closed (s e : Int) (md : List Nat) (nc : List Int) (fm : Int) :
    ∀ n i : Nat, (e + 1 - (fm + 7 * (i : Int))).toNat ≤ n →
      scheduleLoop s e md nc fm i =
        (List.range (weeksRemaining e (fm + 7 * (i : Int)))).map
          (fun j => mkWeek s e md nc fm (i + j)) := by
  intro n
  induction n with
  | zero =>
    intro i hi
    have hlt : e < fm + 7 * (i : Int) := by omega
    rw [scheduleLoop]
    have hrem : weeksRemaining e (fm + 7 * (i : Int)) = 0 := by
      unfold weeksRemaining; omega
    simp [hlt, hrem]
  | succ n ih =>
    intro i hi
    rw [scheduleLoop]
    by_cases hlt : e < fm + 7 * (i : Int)
    · have hrem : weeksRemaining e (fm + 7 * (i : Int)) = 0 := by
        unfold weeksRemaining; omega
      simp [hlt, hrem]
    · have hstep : (e + 1 - (fm + 7 * (((i + 1 : Nat)) : Int))).toNat ≤ n := by
        push_cast
        omega
      have ih' := ih (i + 1) hstep
      have hrem : weeksRemaining e (fm + 7 * (i : Int)) =
          weeksRemaining e (fm + 7 * (((i + 1 : Nat)) : Int)) + 1 := by
        unfold weeksRemaining
        push_cast
        omega
      simp only [hlt, if_false, dif_neg, ih', hrem, List.range_succ_eq_map,
        List.map_cons, List.map_map]
      refine List.cons_eq_cons.mpr ⟨?_, ?_⟩
      · simp [mkWeek]
      · refine List.map_congr_left ?_
        intro j hj
        simp only [Function.comp]
        congr 1
        omega

theorem build_schedule_closed (s e : Int) (md : List Nat) (nc : List Int) :
    build_schedule s e md nc =
      (List.range (numWeeks s e)).map (fun j => mkWeek s e md nc (s - weekday s) j) := by
  unfold build_schedule numWeeks
  have h := scheduleLoop_closed s e md nc (s - weekday s)
    ((e + 1 - (s - weekday s + 7 * ((0 : Nat) : Int))).toNat) 0 le_rfl
  simpa using h

theorem week_numbers_map (s e : Int) (md : List Nat) (nc : List Int) :
    (build_schedule s e md nc).map Week.week_number = List.range' 1 (numWeeks s e) := by
  rw [build_schedule_closed, List.map_map, List.range'_eq_map_range]
  refine List.map_congr_left ?_
  intro j _
  simp [mkWeek, Nat.add_comm]

theorem weekMeetings_mem (s e : Int) (md : List Nat) (nc : List Int) (ws d : Int)
    (hd : d ∈ weekMeetings s e md nc ws) : s ≤ d ∧ d ≤ e ∧ d ∉ nc := by
  simp only [weekMeetings, List.mem_filterMap] at hd
  obtain ⟨wd, _, hif⟩ := hd
  by_cases hc : s ≤ ws + (wd : Int) ∧ ws + (wd : Int) ≤ e ∧ ws + (wd : Int) ∉ nc
  · rw [if_pos hc] at hif
    simp only [Option.some.injEq] at hif
    subst hif
    exact hc
  · simp [hc] at hif

theorem weekMeetings_pairwise (s e : Int) (md : List Nat) (nc : List Int) (ws : Int)
    (hmd : md.Pairwise (· < ·)) : (weekMeetings s e md nc ws).Pairwise (· < ·) := by
  unfold weekMeetings
  rw [List.pairwise_filterMap]
  refine hmd.imp ?_
  intro a b hab x hx y hy
  by_cases hca : s ≤ ws + (a : Int) ∧ ws + (a : Int) ≤ e ∧ ws + (a : Int) ∉ nc
  · by_cases hcb : s ≤ ws + (b : Int) ∧ ws + (b : Int) ≤ e ∧ ws + (b : Int) ∉ nc
    · rw [if_pos hca] at hx
      rw [if_pos hcb] at hy
      simp only [Option.mem_def, Option.some.injEq] at hx hy
      subst hx
      subst hy
      omega
    · simp [hcb] at hy
  · simp [hca] at hx

/-- C1: for all `start_date ≤ end_date`, the first week yielded by
`build_schedule` has a `week_start` that equals `start_date` minus its
zero-based weekday offset, is a Monday (`weekday = 0`), and is `≤ start_date`. -/
theorem first_week_monday (s e : Int) (md : List Nat) (nc : List Int) (h : s ≤ e) :
    ∃ w tail, build_schedule s e md nc = w :: tail ∧
      w.week_start = s - weekday s ∧ weekday w.week_start = 0 ∧ w.week_start ≤ s := by
  have hK : numWeeks s e = (numWeeks s e - 1) + 1 := by
    unfold numWeeks weeksRemaining weekday
    omega
  refine ⟨mkWeek s e md nc (s - weekday s) 0,
    (List.range (numWeeks s e - 1)).map
      ((fun j => mkWeek s e md nc (s - weekday s) j) ∘ Nat.succ), ?_, ?_, ?_, ?_⟩
  · rw [build_schedule_closed, hK, List.range_succ_eq_map, List.map_cons, List.map_map]
    simp
  · simp [mkWeek]
  · simp only [mkWeek]
    unfold weekday
    omega
  · simp only [mkWeek]
    unfold weekday
    omega

/-- C1 witness: instantiated at `start_date = 2`, `end_date = 3`. -/
theorem first_week_monday_witness :
    (2 : Int) ≤ 3 ∧
      (∃ w tail, build_schedule 2 3 [0] [] = w :: tail ∧
        w.week_start = 2 - weekday 2 ∧ weekday w.week_start = 0 ∧ w.week_start ≤ 2) :=
  ⟨by decide, first_week_monday 2 3 [0] [] (by decide)⟩

/-- C2: for every week yielded by `build_schedule` (with the parsed meeting
pattern, which is strictly ascending by the parser's invariant), the
`meeting_dates` list is strictly increasing and every element lies in
`[start_date, end_date]` and outside the exclusion set. -/
theorem week_meetings_sorted_in_range (s e : Int) (md : List Nat) (nc : List Int)
    (hmd : md.Pairwise (· < ·)) :
    ∀ w ∈ build_schedule s e md nc,
      w.meeting_dates.Pairwise (· < ·) ∧
        ∀ d ∈ w.meeting_dates, s ≤ d ∧ d ≤ e ∧ d ∉ nc := by
  intro w hw
  rw [build_schedule_closed, List.mem_map] at hw
  obtain ⟨j, _, rfl⟩ := hw
  constructor
  · exact weekMeetings_pairwise s e md nc _ hmd
  · intro d hd
    exact weekMeetings_mem s e md nc _ d hd

/-- C2 witness: instantiated at `[1, 14]`, pattern `[0, 2]`, exclusions `[3]`. -/
theorem week_meetings_sorted_in_range_witness :
    ([0, 2] : List Nat).Pairwise (· < ·) ∧
      ∀ w ∈ build_schedule 1 14 [0, 2] [3],
        w.meeting_dates.Pairwise (· < ·) ∧
          ∀ d ∈ w.meeting_dates, 1 ≤ d ∧ d ≤ 14 ∧ d ∉ ([3] : List Int) :=
  ⟨by decide, week_meetings_sorted_in_range 1 14 [0, 2] [3] (by decide)⟩

/-- C3: for `start_date ≤ end_date` the schedule is a finite list whose week
numbers are exactly `1..K` ascending without gaps or repeats
(`K = numWeeks`); every yielded week is a Monday-to-Sunday calendar week
intersecting the range (in particular no yielded `week_start` exceeds
`end_date`), and every Monday-to-Sunday calendar week intersecting the range
is yielded, so `K` is exactly the number of such weeks. -/
theorem week_numbers_contiguous (s e : Int) (md : List Nat) (nc : List Int) (h : s ≤ e) :
    (build_schedule s e md nc).map Week.week_number = List.range' 1 (numWeeks s e) ∧
    (∀ w ∈ build_schedule s e md nc,
      w.week_end = w.week_start + 6 ∧ weekday w.week_start = 0 ∧
        w.week_start ≤ e ∧ s ≤ w.week_end) ∧
    (∀ M : Int, weekday M = 0 → M ≤ e → s ≤ M + 6 →
      ∃ w ∈ build_schedule s e md nc, w.week_start = M) := by
  refine ⟨week_numbers_map s e md nc, ?_, ?_⟩
  · intro w hw
    rw [build_schedule_closed, List.mem_map] at hw
    obtain ⟨j, hj, rfl⟩ := hw
    rw [List.mem_range] at hj
    unfold numWeeks weeksRemaining weekday at *
    refine ⟨rfl, by simp only [mkWeek]; omega, ?_, ?_⟩
    · simp only [mkWeek]
      omega
    · simp only [mkWeek]
      omega
  · intro M hM hMe hsM
    have hmod : (M - (s - weekday s)) % 7 = 0 := by
      unfold weekday at *
      omega
    obtain ⟨k, hk⟩ := Int.dvd_of_emod_eq_zero hmod
    have hk0 : 0 ≤ k := by
      unfold weekday at *
      omega
    refine ⟨mkWeek s e md nc (s - weekday s) k.toNat, ?_, ?_⟩
    · rw [build_schedule_closed, List.mem_map]
      refine ⟨k.toNat, List.mem_range.mpr ?_, rfl⟩
      unfold numWeeks weeksRemaining weekday at *
      omega
    · simp only [mkWeek]
      unfold weekday at *
      omega

/-- C3 witness: instantiated at `[1, 14]` (two calendar weeks). -/
theorem week_numbers_contiguous_witness :
    (1 : Int) ≤ 14 ∧
      ((build_schedule 1 14 [0] []).map Week.week_number =
          List.range' 1 (numWeeks 1 14) ∧
        (∀ w ∈ build_schedule 1 14 [0] [],
          w.week_end = w.week_start + 6 ∧ weekday w.week_start = 0 ∧
            w.week_start ≤ 14 ∧ 1 ≤ w.week_end) ∧
        (∀ M : Int, weekday M = 0 → M ≤ 14 → 1 ≤ M + 6 →
          ∃ w ∈ build_schedule 1 14 [0] [], w.week_start = M)) :=
  ⟨by decide, week_numbers_contiguous 1 14 [0] [] (by decide)⟩

/-- C4: the four example meeting-day strings parse to the stated weekday
lists: "MWF" to `[0, 2, 4]`, "TR" to `[1, 3]`, "Mon Wed" to `[0, 2]`,
"tuesday" to `[1]`. -/
theorem parse_meeting_days_examples :
    parse_meeting_days "MWF" = .ok [0, 2, 4] ∧
      parse_meeting_days "TR" = .ok [1, 3] ∧
      parse_meeting_days "Mon Wed" = .ok [0, 2] ∧
      parse_meeting_days "tuesday" = .ok [1] :=
  ⟨rfl, rfl, rfl, rfl⟩

theorem collectDays_nodup :
    ∀ (toks : List (List Char)) (acc c : List Nat), acc.Nodup →
      collectDays toks acc = .ok c → c.Nodup := by
  intro toks
  induction toks with
  | nil =>
    intro acc c hacc hc
    simp only [collectDays, Except.ok.injEq] at hc
    subst hc
    exact hacc
  | cons t rest ih =>
    intro acc c hacc hc
    rw [collectDays] at hc
    split at hc
    · cases hc
    · rename_i wd heq
      by_cases hmem : acc.contains wd
      · rw [if_pos hmem] at hc
        exact ih acc c hacc hc
      · rw [if_neg hmem] at hc
        refine ih (acc ++ [wd]) c ?_ hc
        have hnm : wd ∉ acc := by
          simpa using hmem
        simp [List.nodup_append, hacc, hnm]

/-- C5: every weekday list returned by a successful `parse_meeting_days` is
strictly increasing, hence sorted ascending with no duplicate entries. -/
theorem parse_meeting_days_sorted_nodup (str : String) (l : List Nat)
    (h : parse_meeting_days str = .ok l) : l.Pairwise (· < ·) := by
  unfold parse_meeting_days at h
  cases hc : collectDays (tokensOf str) [] with
  | error msg => rw [hc] at h; cases h
  | ok c =>
    rw [hc] at h
    simp only [Except.ok.injEq] at h
    subst h
    have hnd : c.Nodup := collectDays_nodup _ [] c List.nodup_nil hc
    have hsorted : List.Sorted (· ≤ ·) (List.insertionSort (· ≤ ·) c) :=
      List.sorted_insertionSort (· ≤ ·) c
    have hperm : List.Perm (List.insertionSort (· ≤ ·) c) c :=
      List.perm_insertionSort (· ≤ ·) c
    exact List.Sorted.lt_of_le hsorted (hperm.nodup_iff.mpr hnd)

/-- C5 witness: instantiated at the string "MWF". -/
theorem parse_meeting_days_sorted_nodup_witness :
    parse_meeting_days "MWF" = .ok [0, 2, 4] ∧ ([0, 2, 4] : List Nat).Pairwise (· < ·) :=
  ⟨rfl, parse_meeting_days_sorted_nodup "MWF" [0, 2, 4] rfl⟩

theorem collectDays_error_of_unknown :
    ∀ (toks : List (List Char)) (acc : List Nat) (tok : List Char), tok ∈ toks →
      DAY_NAME_MAP.lookup (tokenKey tok) = none →
      ∃ msg, collectDays toks acc = .error msg := by
  intro toks
  induction toks with
  | nil => intro acc tok h; cases h
  | cons t rest ih =>
    intro acc tok hmem hlook
    rcases List.mem_cons.mp hmem with rfl | hmem
    · refine ⟨"Unknown day token: " ++ String.mk tok, ?_⟩
      simp only [collectDays, hlook]
    · cases hcase : DAY_NAME_MAP.lookup (tokenKey t) with
      | none =>
        refine ⟨"Unknown day token: " ++ String.mk t, ?_⟩
        simp only [collectDays, hcase]
      | some wd =>
        obtain ⟨msg, hmsg⟩ :=
          ih (if acc.contains wd then acc else acc ++ [wd]) tok hmem hlook
        refine ⟨msg, ?_⟩
        simp only [collectDays, hcase]
        exact hmsg

/-- C10: the day-name table maps a single letter only for Monday through
Friday ('m', 't', 'w', 'r', 'f'): every entry whose key is one letter maps
to a weekday `≤ 4`, every Saturday/Sunday entry has a key of at least two
letters, and any meeting-day string whose tokenisation produces the
single-letter token "s" (in any case) makes `parse_meeting_days` fail with
an unknown-day error. -/
theorem single_letter_days :
    (∀ p ∈ DAY_NAME_MAP, p.1.length = 1 → p.2 ≤ 4) ∧
      (∀ p ∈ DAY_NAME_MAP, 5 ≤ p.2 → 2 ≤ p.1.length) ∧
      (∀ str : String, (∃ tok ∈ tokensOf str, tok.map Char.toLower = ['s']) →
        ∃ msg, parse_meeting_days str = .error msg) := by
  refine ⟨by decide, by decide, ?_⟩
  intro str ⟨tok, htok, hlower⟩
  have hkey : DAY_NAME_MAP.lookup (tokenKey tok) = none := by
    unfold tokenKey
    rw [hlower]
    decide
  obtain ⟨msg, hmsg⟩ := collectDays_error_of_unknown (tokensOf str) [] tok htok hkey
  refine ⟨msg, ?_⟩
  unfold parse_meeting_days
  rw [hmsg]

/-- C10 witness: the compact pattern "MWS" (meant as Mon/Wed/Sat) fails. -/
theorem single_letter_days_witness :
    (∃ tok ∈ tokensOf "MWS", tok.map Char.toLower = ['s']) ∧
      ∃ msg, parse_meeting_days "MWS" = .error msg :=
  ⟨by decide, single_letter_days.2.2 "MWS" (by decide)⟩

/-- C6: whenever the parsed end date precedes the parsed start date, `main`
aborts with the fatal range-error message and its write trace is empty: no
week file and no index file is written on this path. -/
theorem range_error_no_writes (argv : List String) (s e : Int)
    (h4 : ¬ argv.length < 4)
    (h1 : parse_date (argv.getD 1 "") = .ok s)
    (h2 : parse_date (argv.getD 2 "") = .ok e)
    (hlt : e < s) :
    runMain argv = ([], some rangeErrMsg) := by
  unfold runMain
  simp only [if_neg h4, h1, h2]
  rw [if_pos hlt]

/-- C6 witness: instantiated at dates 1/2/0001 and 1/1/0001. -/
theorem range_error_no_writes_witness :
    (¬ (["make_weeks.py", "1/2/1", "1/1/1", "MWF"] : List String).length < 4) ∧
      parse_date "1/2/1" = .ok 2 ∧ parse_date "1/1/1" = .ok 1 ∧ (1 : Int) < 2 ∧
      runMain ["make_weeks.py", "1/2/1", "1/1/1", "MWF"] = ([], some rangeErrMsg) :=
  ⟨by decide, rfl, rfl, by decide,
    range_error_no_writes ["make_weeks.py", "1/2/1", "1/1/1", "MWF"] 2 1
      (by decide) rfl rfl (by decide)⟩

/-- C7 counterexample: an argument list whose `--no-class` flag is the last
token but which fails with the range error, not the missing-value error, so
"for every argument list in which the flag is present but no token follows
it, the program fails with a fatal missing-value error" is false as stated. -/
theorem no_class_missing_value_counterexample :
    runMain ["make_weeks.py", "1/2/1", "1/1/1", "MWF", "--no-class"] =
        ([], some rangeErrMsg) ∧
      rangeErrMsg ≠ missingValueMsg := by
  constructor
  · rfl
  · decide

/-- C7 (amended): for every argument list that passes the earlier stages
(enough tokens, both dates parse, end not before start, meeting days parse)
and whose first `--no-class` token has no following token, `main` fails with
the fatal missing-value error; and whenever the flag is absent the exclusion
set used is empty. -/
theorem no_class_flag_behavior :
    (∀ (argv : List String) (s e : Int) (md : List Nat),
      ¬ argv.length < 4 →
      parse_date (argv.getD 1 "") = .ok s →
      parse_date (argv.getD 2 "") = .ok e →
      ¬ e < s →
      parse_meeting_days (argv.getD 3 "") = .ok md →
      argv.contains "--no-class" = true →
      argv.length ≤ argv.findIdx (· == "--no-class") + 1 →
      runMain argv = ([], some missingValueMsg)) ∧
    (∀ argv : List String, argv.contains "--no-class" = false →
      parseNoClass argv = .ok []) := by
  constructor
  · intro argv s e md h4 h1 h2 hse h3 hflag hlast
    have hnc : parseNoClass argv = .error missingValueMsg := by
      unfold parseNoClass
      rw [if_pos hflag]
      dsimp only
      rw [if_pos hlast]
    unfold runMain
    simp only [if_neg h4, h1, h2, if_neg hse, h3, hnc]
  · intro argv hflag
    unfold parseNoClass
    rw [if_neg (by rw [hflag]; simp)]

/-- C7 witness: a missing-value failure after valid earlier arguments, and an
empty exclusion set without the flag. -/
theorem no_class_flag_behavior_witness :
    (¬ (["make_weeks.py", "1/1/1", "1/2/1", "MWF", "--no-class"] : List String).length < 4) ∧
      runMain ["make_weeks.py", "1/1/1", "1/2/1", "MWF", "--no-class"] =
        ([], some missingValueMsg) ∧
      parseNoClass ["make_weeks.py"] = .ok [] :=
  ⟨by decide,
    no_class_flag_behavior.1 ["make_weeks.py", "1/1/1", "1/2/1", "MWF", "--no-class"]
      1 2 [0, 2, 4] (by decide) rfl rfl (by decide) rfl (by decide) (by decide),
    no_class_flag_behavior.2 ["make_weeks.py"] (by decide)⟩

/-- C8: the number of weeks yielded by `build_schedule` depends only on the
date range, never on the meeting pattern or the exclusion set, so a calendar
week whose candidate meeting dates are all removed is still yielded; and the
document generated for a week with an empty meeting list is the full week
document whose definition-list body is empty (header lines directly followed
by the closing lines), not a missing document. -/
theorem empty_week_still_yielded (s e : Int) (md : List Nat) (nc : List Int) :
    (build_schedule s e md nc).length = numWeeks s e ∧
    (∀ (n : Nat) (ws we : Int),
      generate_week_xml n ws we [] =
        String.intercalate "\n" (weekHeaderLines n ws we ++ weekFooterLines)) := by
  constructor
  · rw [build_schedule_closed]
    simp
  · intro n ws we
    simp [generate_week_xml]

/-- C9: on every successful run the write trace is the week files followed
last by `main.ptx`; the week file names are `week01.ptx … weekKK.ptx` in
ascending week-number order, and the index content is one inclusion
reference per week file, in that order, followed by the fixed boilerplate
disclaimer lines. -/
theorem index_document (argv : List String) (s e : Int) (md : List Nat) (nc : List Int)
    (h4 : ¬ argv.length < 4)
    (h1 : parse_date (argv.getD 1 "") = .ok s)
    (h2 : parse_date (argv.getD 2 "") = .ok e)
    (hse : ¬ e < s)
    (h3 : parse_meeting_days (argv.getD 3 "") = .ok md)
    (hnc : parseNoClass argv = .ok nc) :
    ∃ weekWrites : List (String × String),
      runMain argv =
        (weekWrites ++ [("main.ptx", generate_main_ptx (weekWrites.map Prod.fst))], none) ∧
      weekWrites.map Prod.fst = (List.range' 1 (numWeeks s e)).map fileName ∧
      generate_main_ptx (weekWrites.map Prod.fst) =
        String.intercalate "\n" (mainPtxHeaderLines ++
          (weekWrites.map Prod.fst).map includeLine ++ mainPtxFooterLines) := by
  refine ⟨(build_schedule s e md nc).map (fun w =>
    (fileName w.week_number,
      generate_week_xml w.week_number w.week_start w.week_end w.meeting_dates)), ?_, ?_, ?_⟩
  · unfold runMain
    simp only [if_neg h4, h1, h2, if_neg hse, h3, hnc]
    rw [List.map_map]
    rfl
  · rw [List.map_map,
      show (Prod.fst ∘ fun w : Week =>
          (fileName w.week_number,
            generate_week_xml w.week_number w.week_start w.week_end w.meeting_dates)) =
        fileName ∘ Week.week_number from rfl,
      ← List.map_map, week_numbers_map]
  · rfl

/-- C9 witness: instantiated at the run `1/1/0001 … 1/8/0001 "MWF"`. -/
theorem index_document_witness :
    (¬ (["make_weeks.py", "1/1/1", "1/8/1", "MWF"] : List String).length < 4) ∧
      parseNoClass ["make_weeks.py", "1/1/1", "1/8/1", "MWF"] = .ok [] ∧
      (∃ weekWrites : List (String × String),
        runMain ["make_weeks.py", "1/1/1", "1/8/1", "MWF"] =
          (weekWrites ++ [("main.ptx", generate_main_ptx (weekWrites.map Prod.fst))], none) ∧
        weekWrites.map Prod.fst = (List.range' 1 (numWeeks 1 8)).map fileName ∧
        generate_main_ptx (weekWrites.map Prod.fst) =
          String.intercalate "\n" (mainPtxHeaderLines ++
            (weekWrites.map Prod.fst).map includeLine ++ mainPtxFooterLines)) :=
  ⟨by decide, rfl,
    index_document ["make_weeks.py", "1/1/1", "1/8/1", "MWF"] 1 8 [0, 2, 4] []
      (by decide) rfl rfl (by decide) rfl rfl⟩
